import Mathlib

/-!
Shallow embedding of `xdress/typefilter.py`: the `_flatten` helper, the
`_match_anywhere` predicate monkey-patched onto `TypeMatcher`, and the
`XDressPlugin.setup` / `XDressPlugin.execute` filter engine together with
`_modify_class_desc`.  Python type expressions are strings or arbitrarily
nested tuples/lists; exceptions raised by the external matcher are modelled
with `Except`.
-/

namespace Typefilter

mutual

/-- Python values that play the role of type expressions in
`typefilter.py`: a string (leaf identifier) or a tuple/list of nested
values.  `tuple` and `list` behave identically everywhere in the source
(`isinstance(el, (list, tuple))`), so one constructor covers both. -/
inductive PyVal : Type where
| str : String → PyVal
| tup : PyList → PyVal

inductive PyList : Type where
| nil : PyList
| cons : PyVal → PyList → PyList

end

mutual

/-- Boolean equality of Python values (structural, as Python `==` on
strings and tuples of strings). -/
def PyVal.beq : PyVal → PyVal → Bool
| .str a, .str b => a == b
| .tup a, .tup b => PyList.beq a b
| .str _, .tup _ => false
| .tup _, .str _ => false

def PyList.beq : PyList → PyList → Bool
| .nil, .nil => true
| .cons x xs, .cons y ys => PyVal.beq x y && PyList.beq xs ys
| .nil, .cons _ _ => false
| .cons _ _, .nil => false

end

mutual

theorem pyValBeqRefl : ∀ v : PyVal, PyVal.beq v v = true
| .str a => by simp [PyVal.beq]
| .tup a => by simpa [PyVal.beq] using pyListBeqRefl a

theorem pyListBeqRefl : ∀ l : PyList, PyList.beq l l = true
| .nil => rfl
| .cons x xs => by
    simp [PyList.beq, pyValBeqRefl x, pyListBeqRefl xs]

end

mutual

theorem pyValEqOfBeq : ∀ {a b : PyVal}, PyVal.beq a b = true → a = b
| .str a, .str b, h => by
    simp [PyVal.beq] at h; simpa using h
| .tup a, .tup b, h => by
    have := pyListEqOfBeq (a := a) (b := b) (by simpa [PyVal.beq] using h)
    simp [this]
| .str _, .tup _, h => by simp [PyVal.beq] at h
| .tup _, .str _, h => by simp [PyVal.beq] at h

theorem pyListEqOfBeq : ∀ {a b : PyList}, PyList.beq a b = true → a = b
| .nil, .nil, _ => rfl
| .cons x xs, .cons y ys, h => by
    have hx : PyVal.beq x y = true := by
      have := h; simp [PyList.beq] at this; exact this.1
    have hxs : PyList.beq xs ys = true := by
      have := h; simp [PyList.beq] at this; exact this.2
    have e1 := pyValEqOfBeq hx
    have e2 := pyListEqOfBeq hxs
    simp [e1, e2]
| .nil, .cons _ _, h => by simp [PyList.beq] at h
| .cons _ _, .nil, h => by simp [PyList.beq] at h

end

instance : DecidableEq PyVal := fun a b =>
  if h : PyVal.beq a b = true then .isTrue (pyValEqOfBeq h)
  else .isFalse fun he => h (he ▸ pyValBeqRefl a)

instance : DecidableEq PyList := fun a b =>
  if h : PyList.beq a b = true then .isTrue (pyListEqOfBeq h)
  else .isFalse fun he => h (he ▸ pyListBeqRefl a)

mutual

/-- One step of the loop body of `_flatten`: an element of the iterated
collection is recursively flattened when it is a list/tuple
(`res.extend(_flatten(el))`), and appended whole otherwise
(`res.append(el)`). -/
def elemFlat : PyVal → List PyVal
| .tup ys => flattenL ys
| .str s => [.str s]

def flattenL : PyList → List PyVal
| .nil => []
| .cons x xs => elemFlat x ++ flattenL xs

end

mutual

/-- The function `_flatten` of `typefilter.py` applied to a Python value.
Iterating a tuple/list visits its elements; iterating a string visits its
characters as one-character strings (so a bare string is flattened into
its characters, not kept whole).  Both are iterable, so the
`except TypeError` branch of `_flatten` is never taken on these inputs. -/
def flatten : PyVal → List PyVal
| .str s => s.data.map fun c => PyVal.str (String.mk [c])
| .tup xs => flattenL xs

/-- Does the string `s` occur as a leaf anywhere (at any nesting depth)
inside the value? -/
def containsStr (s : String) : PyVal → Bool
| .str a => a == s
| .tup xs => containsStrL s xs

def containsStrL (s : String) : PyList → Bool
| .nil => false
| .cons x xs => containsStr s x || containsStrL s xs

end

/-- Python exceptions relevant to the code: `TypeError` (the only kind
`_match_anywhere` catches) and every other exception kind. -/
inductive PyErr : Type where
| typeError : PyErr
| otherError : PyErr
deriving DecidableEq

/-- The external `TypeMatcher.matches` capability: given a candidate it
returns a boolean or raises an exception. -/
def Matcher : Type := PyVal → Except PyErr Bool

/-- The list comprehension `[self.matches(i) for i in _flatten(t)]`: every
element is evaluated eagerly, in order, and the first exception
propagates. -/
def matchList (m : Matcher) : List PyVal → Except PyErr (List Bool)
| [] => .ok []
| x :: xs => do
  let b ← m x
  let bs ← matchList m xs
  .ok (b :: bs)

/-- The composite branch of `_match_anywhere`:
`any([self.matches(i) for i in _flatten(t)])`. -/
def flattenFallback (m : Matcher) (t : PyVal) : Except PyErr (Option Bool) := do
  let bs ← matchList m (flatten t)
  .ok (some (bs.any id))

/-- The function `_match_anywhere` of `typefilter.py`.  The result is a
Python value: `True`, the boolean returned by a `matches` call, or the
implicit `None` when the function falls off the end.  The `try` block
covers only the initial whole-candidate call; its `else` clause (the leaf
re-check and the flatten fallback) runs only when that call did not
raise, and only a `TypeError` is caught. -/
def matchAnywhere (m : Matcher) (t : PyVal) : Except PyErr (Option Bool) :=
  match m t with
  | .error .typeError => .ok none
  | .error e => .error e
  | .ok true => .ok (some true)
  | .ok false =>
    match t with
    | .str a =>
      match m (.str a) with
      | .error e => .error e
      | .ok b => .ok (some b)
    | .tup _ => flattenFallback m t

/-- Python truthiness of the value `_match_anywhere` returns (`None` is
falsy). -/
def truthy : Option Bool → Bool
| none => false
| some b => b

/-- Modelled from the spec: `TypeMatcher` lives in `xdress.typesystem`,
which is not part of the shown sources.  The spec treats it as an opaque
capability "constructed from a reference TypeExpression" that "tests
whether a concrete type expression equals the pattern"; an exact pattern
is modelled as structural equality with the reference expression, never
raising. -/
def typeMatcher (p : PyVal) : Matcher := fun c => .ok (PyVal.beq c p)

/-- One method parameter as it sits inside a method key of the
description dictionary: `(name, type)` or `(name, type, default)`; the
engine reads only `arg[1]`, the type. -/
structure Param : Type where
  pname : String
  ptype : PyVal
  pdefault : Option PyVal

/-- A key of the `methods` mapping: the method name followed by its
parameters (`m_key[1:]` are the parameters). -/
structure MethodKey : Type where
  mname : String
  args : List Param

/-- The inner matcher loop shared by the attribute and method passes:
`for tm in skips: if tm._match_anywhere(t): ... break`.  The first truthy
result wins; an exception from `_match_anywhere` propagates. -/
def firstMatch (skips : List Matcher) (t : PyVal) : Except PyErr Bool :=
  match skips with
  | [] => .ok false
  | tm :: rest => do
    let r ← matchAnywhere tm t
    if truthy r then .ok true else firstMatch rest t

/-- The parameter loop of the method pass: each parameter's type (only
`arg[1]`) is checked in order, stopping at the first match. -/
def argsCheck (skips : List Matcher) : List Param → Except PyErr Bool
| [] => .ok false
| a :: rest => do
  let m ← firstMatch skips a.ptype
  if m then .ok true else argsCheck skips rest

/-- Is the method with key `k` and return type `ret` deleted?  The return
type is checked first against every matcher; only when that finds nothing
are the parameter types checked. -/
def methodDeleted (skips : List Matcher) (k : MethodKey) (ret : PyVal) :
    Except PyErr Bool := do
  let r ← firstMatch skips ret
  if r then .ok true else argsCheck skips k.args

/-- The attribute pass of `_modify_class_desc`: iterate a snapshot
(`desc['attrs'].copy().items()`) of the insertion-ordered mapping and drop
every attribute some matcher matches. -/
def filterAttrs (skips : List Matcher) :
    List (String × PyVal) → Except PyErr (List (String × PyVal))
| [] => .ok []
| (n, t) :: rest => do
  let m ← firstMatch skips t
  let rest' ← filterAttrs skips rest
  .ok (if m then rest' else (n, t) :: rest')

/-- The method pass of `_modify_class_desc`: iterate a snapshot of the
`methods` mapping and drop every method whose return type or some
parameter type matches. -/
def filterMethods (skips : List Matcher) :
    List (MethodKey × PyVal) → Except PyErr (List (MethodKey × PyVal))
| [] => .ok []
| (k, ret) :: rest => do
  let d ← methodDeleted skips k ret
  let rest' ← filterMethods skips rest
  .ok (if d then rest' else (k, ret) :: rest')

/-- A class descriptor: its `name` entry and its insertion-ordered
`attrs` (attribute name to type) and `methods` (method key to return
type) mappings. -/
structure ClassDesc : Type where
  name : String
  attrs : List (String × PyVal)
  methods : List (MethodKey × PyVal)

/-- The function `_modify_class_desc` applied to one class descriptor
with the applicable matcher list already selected: attributes are pruned
first, then methods; the descriptor itself survives. -/
def modifyClassDesc (skips : List Matcher) (c : ClassDesc) :
    Except PyErr ClassDesc := do
  let attrs' ← filterAttrs skips c.attrs
  let methods' ← filterMethods skips c.methods
  .ok { c with attrs := attrs', methods := methods' }

/-- An entity descriptor of a module: a class descriptor, or any other
descriptor (variable, function, ...), which the engine never touches.
Modelled from the spec: `isclassdesc` of `xdress.utils` is not under the
shown sources; the spec says the engine processes "every entity
descriptor in that module that represents a class", so being a class
descriptor is the `cls` shape. -/
inductive Desc : Type where
| cls : ClassDesc → Desc
| other : String → Desc

/-- A module of the description environment: entity key to descriptor,
insertion ordered. -/
abbrev Mod : Type := List (String × Desc)

/-- The whole description environment `rc.env`: module key to module. -/
abbrev Env : Type := List (String × Mod)

/-- The raw `skiptypes` configuration before `setup` runs: the
`NotSpecified` sentinel, Python `None`, a dict of class name to pattern
list, or a list/tuple of patterns. -/
inductive RawSkip : Type where
| notSpecified : RawSkip
| pyNone : RawSkip
| dict : List (String × List PyVal) → RawSkip
| listc : List PyVal → RawSkip
| tuplec : List PyVal → RawSkip

/-- The `skiptypes` configuration after `setup`: patterns replaced by
compiled matchers.  `None` survives `setup` unchanged and then falls
through every `isinstance` test of `execute`. -/
inductive Skip : Type where
| notSpecified : Skip
| pyNone : Skip
| dict : List (String × List Matcher) → Skip
| listc : List Matcher → Skip

/-- `XDressPlugin.setup`: compile every raw pattern to a `TypeMatcher`
through the external factory `mk`, keeping the dict/list shape; a tuple
becomes a list.  The sentinel and `None` fall through every `isinstance`
test unchanged. -/
def setup (mk : PyVal → Matcher) : RawSkip → Skip
| .notSpecified => .notSpecified
| .pyNone => .pyNone
| .dict kvs => .dict (kvs.map fun kv => (kv.1, kv.2.map mk))
| .listc ts => .listc (ts.map mk)
| .tuplec ts => .listc (ts.map mk)

/-- One entity of the dict branch of `execute`: a class descriptor whose
name is a key of `skiptypes` is rewritten by `_modify_class_desc` with
the list keyed by its name; every other descriptor is left alone. -/
def execEntryDict (kvs : List (String × List Matcher)) (d : Desc) :
    Except PyErr Desc :=
  match d with
  | .cls c =>
    match List.lookup c.name kvs with
    | some ms => do
      let c' ← modifyClassDesc ms c
      .ok (Desc.cls c')
    | none => .ok (Desc.cls c)
  | .other s => .ok (.other s)

/-- One entity of the list branch of `execute`: every class descriptor is
rewritten with the single global matcher list. -/
def execEntryList (ms : List Matcher) (d : Desc) : Except PyErr Desc :=
  match d with
  | .cls c => do
    let c' ← modifyClassDesc ms c
    .ok (Desc.cls c')
  | .other s => .ok (.other s)

/-- Both branches of `execute` walk one module the same way: each entity
descriptor in insertion order is rewritten by the per-entity action `f`;
a raised exception propagates, and the deletions performed inside `f`
never disturb the iteration because it runs over a `.copy()` snapshot. -/
def mapModM (f : Desc → Except PyErr Desc) : Mod → Except PyErr Mod
| [] => .ok []
| (kk, d) :: rest => do
  let d' ← f d
  let rest' ← mapModM f rest
  .ok ((kk, d') :: rest')

/-- The walk of `execute` over the whole environment: every module in
order, every entity of each module in order. -/
def mapEnvM (f : Desc → Except PyErr Desc) : Env → Except PyErr Env
| [] => .ok []
| (mk, mod) :: rest => do
  let mod' ← mapModM f mod
  let rest' ← mapEnvM f rest
  .ok ((mk, mod') :: rest')

/-- `XDressPlugin.execute`: nothing happens for the sentinel, and `None`
falls through both `isinstance` branches; a dict dispatches per class
name, a list applies the global matcher list to every class. -/
def execute (skip : Skip) (env : Env) : Except PyErr Env :=
  match skip with
  | .notSpecified => .ok env
  | .pyNone => .ok env
  | .dict kvs => mapEnvM (execEntryDict kvs) env
  | .listc ms => mapEnvM (execEntryList ms) env

/-! ## Basic lemmas about the embedding -/

@[simp] theorem ok_bind {α β : Type} (a : α) (f : α → Except PyErr β) :
    (Except.ok a >>= f) = f a := rfl

@[simp] theorem error_bind {α β : Type} (e : PyErr) (f : α → Except PyErr β) :
    (Except.error e >>= f) = Except.error e := rfl

theorem matchList_map (f : PyVal → Bool) :
    ∀ l : List PyVal, matchList (fun v => .ok (f v)) l = .ok (l.map f)
| [] => rfl
| x :: xs => by simp [matchList, matchList_map f xs]

mutual

theorem mem_elemFlat : ∀ (v : PyVal) (s : String), containsStr s v = true →
    PyVal.str s ∈ elemFlat v
| .str a, s, h => by
  simp [containsStr] at h
  simp [elemFlat, h]
| .tup xs, s, h => mem_flattenL xs s (by simpa [containsStr] using h)

theorem mem_flattenL : ∀ (l : PyList) (s : String), containsStrL s l = true →
    PyVal.str s ∈ flattenL l
| .nil, s, h => by simp [containsStrL] at h
| .cons x xs, s, h => by
  simp only [flattenL, List.mem_append]
  simp [containsStrL] at h
  rcases h with h | h
  · exact Or.inl (mem_elemFlat x s h)
  · exact Or.inr (mem_flattenL xs s h)

end

mutual

/-- Well-formed type expressions in the sense of the spec's data model:
a Leaf is a (nonempty) identifier and a Composite combines a base with
its arguments, so it has at least one child. -/
def wfPy : PyVal → Bool
| .str s => !s.isEmpty
| .tup .nil => false
| .tup (.cons x xs) => wfPyList (.cons x xs)

def wfPyList : PyList → Bool
| .nil => true
| .cons x xs => wfPy x && wfPyList xs

end

mutual

theorem elemFlat_ne_nil : ∀ v : PyVal, wfPy v = true → elemFlat v ≠ []
| .str s, _ => by simp [elemFlat]
| .tup .nil, h => by simp [wfPy] at h
| .tup (.cons x xs), h =>
  flattenL_cons_ne_nil x xs (by simpa [wfPy] using h)

theorem flattenL_cons_ne_nil : ∀ (x : PyVal) (xs : PyList),
    wfPyList (.cons x xs) = true → flattenL (.cons x xs) ≠ []
| x, xs, h => by
  have hx : wfPy x = true := by
    simp [wfPyList] at h
    exact h.1
  simp only [flattenL, ne_eq, List.append_eq_nil]
  intro hc
  exact elemFlat_ne_nil x hx hc.1

end

theorem flatten_ne_nil_of_wf : ∀ v : PyVal, wfPy v = true → flatten v ≠ []
| .str s, h => by
  cases s with
  | mk d =>
    simp [wfPy, String.isEmpty, String.endPos, String.utf8ByteSize] at h
    cases d with
    | nil => simp at h
    | cons c cs => simp [flatten]
| .tup .nil, h => by simp [wfPy] at h
| .tup (.cons x xs), h => by
  simpa [flatten] using flattenL_cons_ne_nil x xs (by simpa [wfPy] using h)

theorem flatten_leaf_eq_singleton_iff (s : String) :
    flatten (.str s) = [.str s] ↔ s.length = 1 := by
  cases s with
  | mk d =>
    constructor
    · intro h
      have := congrArg List.length h
      simpa [flatten, String.length] using this
    · intro h
      obtain ⟨c, hc⟩ := List.length_eq_one.mp (by simpa [String.length] using h)
      subst hc
      rfl

/-! ## C1: a caught failure of the whole-candidate call -/

/-- A matcher that fails with `TypeError` on any tuple/list (incompatible
shape) but matches every leaf. -/
def cexMatcherC1 : Matcher := fun v =>
  match v with
  | .tup _ => .error .typeError
  | .str _ => .ok true

/-- C1 (counterexample): when the initial whole-candidate call raises
`TypeError`, `_match_anywhere` returns `None` at once; the flatten
fallback of step 3 would have returned `True` for this candidate, so the
final result is NOT determined by the later steps, contrary to the
claim. -/
theorem caught_failure_no_fallback_cex :
    cexMatcherC1 (.tup (.cons (.str "float64") .nil)) = .error .typeError ∧
    flattenFallback cexMatcherC1 (.tup (.cons (.str "float64") .nil)) =
      .ok (some true) ∧
    matchAnywhere cexMatcherC1 (.tup (.cons (.str "float64") .nil)) = .ok none ∧
    matchAnywhere cexMatcherC1 (.tup (.cons (.str "float64") .nil)) ≠
      flattenFallback cexMatcherC1 (.tup (.cons (.str "float64") .nil)) := by
  refine ⟨rfl, rfl, rfl, fun h => ?_⟩
  have h' : (Except.ok (none : Option Bool) : Except PyErr (Option Bool)) =
      .ok (some true) := h
  simp at h'

/-- C1 (amended): when the initial whole-candidate call
`matcher.matches(candidate)` raises `TypeError`, the failure is treated
as "not matched" and `_match_anywhere` returns `None` immediately; the
leaf re-check and the flatten fallback run only when the initial call
returned `False` without raising. -/
theorem matchAnywhere_typeError_absorbed (m : Matcher) (t : PyVal)
    (h : m t = .error .typeError) : matchAnywhere m t = .ok none := by
  simp [matchAnywhere, h]

theorem matchAnywhere_typeError_absorbed_witness :
    matchAnywhere cexMatcherC1 (.tup (.cons (.str "float64") .nil)) = .ok none :=
  matchAnywhere_typeError_absorbed cexMatcherC1 (.tup (.cons (.str "float64") .nil)) rfl

/-! ## C2: what `_flatten` returns on a Leaf -/

/-- C2 (counterexample): `_flatten` applied to the Leaf `"float64"`
iterates the string and returns its characters, not the singleton
`["float64"]`; and on the empty composite it returns the empty
sequence. -/
theorem flatten_leaf_cex :
    flatten (.str "float64") =
      [.str "f", .str "l", .str "o", .str "a", .str "t", .str "6", .str "4"] ∧
    flatten (.str "float64") ≠ [.str "float64"] ∧
    flatten (.tup .nil) = [] := by
  refine ⟨rfl, ?_, rfl⟩
  decide

/-- C2 (amended): for well-formed TypeExpressions (nonempty identifier
leaves, composites with at least one child) `_flatten` returns a
non-empty sequence; on a Leaf it returns the list of the identifier's
characters as one-character strings, which equals the singleton `[t]`
exactly when the identifier has length one. -/
theorem flatten_wf_nonempty_and_leaf_char_iff :
    (∀ v : PyVal, wfPy v = true → flatten v ≠ []) ∧
    (∀ s : String, flatten (.str s) = [.str s] ↔ s.length = 1) :=
  ⟨flatten_ne_nil_of_wf, flatten_leaf_eq_singleton_iff⟩

theorem flatten_wf_nonempty_witness :
    flatten (.tup (.cons (.str "float64") .nil)) ≠ [] ∧
    flatten (.str "x") = [.str "x"] :=
  ⟨flatten_wf_nonempty_and_leaf_char_iff.1 _ (by decide),
   (flatten_wf_nonempty_and_leaf_char_iff.2 "x").mpr rfl⟩

/-! ## C3: matcher failures on flattened leaves -/

/-- A matcher that evaluates tuples/lists to `False` but raises
`TypeError` on every leaf. -/
def cexMatcherC3 : Matcher := fun v =>
  match v with
  | .tup _ => .ok false
  | .str _ => .error .typeError

/-- A one-class environment whose single attribute has a composite
type. -/
def envC3 : Env :=
  [("mod", [("A", Desc.cls
    { name := "A"
      attrs := [("x", .tup (.cons (.str "float64") .nil))]
      methods := [] })])]

/-- C3 (counterexample): a `TypeError` raised by `matches` on a
flattened leaf is not absorbed: it propagates out of `_match_anywhere`,
and through the filter pass, aborting `execute` on a one-class model. -/
theorem matcher_error_aborts_pass_cex :
    matchAnywhere cexMatcherC3 (.tup (.cons (.str "float64") .nil)) =
      .error .typeError ∧
    execute (.listc [cexMatcherC3]) envC3 = .error .typeError :=
  ⟨rfl, rfl⟩

/-- C3 (amended): only a `TypeError` of the initial whole-candidate call
is absorbed; when that call returns `False` and one of the
`matches(leaf)` calls of the flatten fallback raises, the exception
propagates out of `_match_anywhere` (and hence out of the filtering
pass). -/
theorem matchAnywhere_leaf_error_propagates (m : Matcher) (xs : PyList) (e : PyErr)
    (h1 : m (.tup xs) = .ok false)
    (h2 : matchList m (flattenL xs) = .error e) :
    matchAnywhere m (.tup xs) = .error e := by
  simp [matchAnywhere, h1, flattenFallback, flatten, h2]

theorem matchAnywhere_leaf_error_propagates_witness :
    matchAnywhere cexMatcherC3 (.tup (.cons (.str "float64") .nil)) =
      .error .typeError :=
  matchAnywhere_leaf_error_propagates cexMatcherC3 (.cons (.str "float64") .nil)
    .typeError rfl rfl

/-! ## C5: a pattern equal to a nested leaf matches anywhere -/

/-- C5: for a composite candidate containing the leaf `s` at any depth,
the exact matcher built from the pattern `s` succeeds through the
flatten fallback of `_match_anywhere`. -/
theorem matchAnywhere_finds_nested_leaf (xs : PyList) (s : String)
    (h : containsStr s (.tup xs) = true) :
    matchAnywhere (typeMatcher (.str s)) (.tup xs) = .ok (some true) := by
  have hmem : PyVal.str s ∈ flattenL xs :=
    mem_flattenL xs s (by simpa [containsStr] using h)
  have hmap : ((flattenL xs).map (fun v => PyVal.beq v (.str s))).any id = true :=
    List.any_eq_true.mpr ⟨true, List.mem_map.mpr ⟨.str s, hmem, pyValBeqRefl _⟩, rfl⟩
  have hrun : matchList (typeMatcher (.str s)) (flattenL xs) =
      .ok ((flattenL xs).map fun v => PyVal.beq v (.str s)) :=
    matchList_map (fun v => PyVal.beq v (.str s)) (flattenL xs)
  simp [matchAnywhere, typeMatcher, PyVal.beq, flattenFallback, flatten,
    hrun, hmap]

theorem matchAnywhere_finds_nested_leaf_witness :
    matchAnywhere (typeMatcher (.str "float64"))
      (.tup (.cons (.tup (.cons (.str "vector") (.cons (.str "float64") .nil)))
        (.cons (.str "&") .nil))) = .ok (some true) :=
  matchAnywhere_finds_nested_leaf
    (.cons (.tup (.cons (.str "vector") (.cons (.str "float64") .nil)))
      (.cons (.str "&") .nil)) "float64" (by decide)

/-! ## C10: nested strings are flattened whole -/

/-- C10: every string nested at any depth inside a tuple/list candidate
appears whole, as one complete element, in the result of `_flatten`;
nested identifiers are never split into characters. -/
theorem flatten_keeps_nested_strings_whole (xs : PyList) (s : String)
    (h : containsStr s (.tup xs) = true) :
    PyVal.str s ∈ flatten (.tup xs) := by
  simpa [flatten] using mem_flattenL xs s (by simpa [containsStr] using h)

theorem flatten_keeps_nested_strings_whole_witness :
    PyVal.str "float64" ∈ flatten
      (.tup (.cons (.tup (.cons (.str "float64") .nil)) (.cons (.str "&") .nil))) :=
  flatten_keeps_nested_strings_whole
    (.cons (.tup (.cons (.str "float64") .nil)) (.cons (.str "&") .nil))
    "float64" (by decide)

/-! ## Helper lemmas about the filter engine -/

/-- Does an `Except` computation hold the value `False` (entity
survives)? -/
def isOkFalse : Except PyErr Bool → Bool
| .ok false => true
| _ => false

theorem isOkFalse_iff {x : Except PyErr Bool} :
    isOkFalse x = true ↔ x = .ok false := by
  cases x with
  | error e => simp [isOkFalse]
  | ok b => cases b <;> simp [isOkFalse]

theorem filterAttrs_eq_filter (skips : List Matcher) :
    ∀ l l' : List (String × PyVal), filterAttrs skips l = .ok l' →
      l' = l.filter fun e => isOkFalse (firstMatch skips e.2) := by
  intro l
  induction l with
  | nil =>
    intro l' h
    injection h with h
    simp [h.symm]
  | cons e rest ih =>
    intro l' h
    obtain ⟨n, t⟩ := e
    cases hm : firstMatch skips t with
    | error er => simp [filterAttrs, hm] at h
    | ok m =>
      cases hr : filterAttrs skips rest with
      | error er => simp [filterAttrs, hm, hr] at h
      | ok rest' =>
        simp [filterAttrs, hm, hr] at h
        cases m with
        | true => simp [← h, List.filter_cons, isOkFalse, hm, ih rest' hr]
        | false => simp [← h, List.filter_cons, isOkFalse, hm, ih rest' hr]

theorem filterMethods_eq_filter (skips : List Matcher) :
    ∀ l l' : List (MethodKey × PyVal), filterMethods skips l = .ok l' →
      l' = l.filter fun e => isOkFalse (methodDeleted skips e.1 e.2) := by
  intro l
  induction l with
  | nil =>
    intro l' h
    injection h with h
    simp [h.symm]
  | cons e rest ih =>
    intro l' h
    obtain ⟨k, ret⟩ := e
    cases hm : methodDeleted skips k ret with
    | error er => simp [filterMethods, hm] at h
    | ok m =>
      cases hr : filterMethods skips rest with
      | error er => simp [filterMethods, hm, hr] at h
      | ok rest' =>
        simp [filterMethods, hm, hr] at h
        cases m with
        | true => simp [← h, List.filter_cons, isOkFalse, hm, ih rest' hr]
        | false => simp [← h, List.filter_cons, isOkFalse, hm, ih rest' hr]

theorem filterAttrs_of_surviving (skips : List Matcher) :
    ∀ l : List (String × PyVal), (∀ e ∈ l, firstMatch skips e.2 = .ok false) →
      filterAttrs skips l = .ok l := by
  intro l
  induction l with
  | nil => intro _; rfl
  | cons e rest ih =>
    intro h
    have hhead : firstMatch skips e.2 = .ok false := h e (by simp)
    have hrest : filterAttrs skips rest = .ok rest :=
      ih fun x hx => h x (by simp [hx])
    simp [filterAttrs, hhead, hrest]

theorem filterMethods_of_surviving (skips : List Matcher) :
    ∀ l : List (MethodKey × PyVal),
      (∀ e ∈ l, methodDeleted skips e.1 e.2 = .ok false) →
      filterMethods skips l = .ok l := by
  intro l
  induction l with
  | nil => intro _; rfl
  | cons e rest ih =>
    intro h
    have hhead : methodDeleted skips e.1 e.2 = .ok false := h e (by simp)
    have hrest : filterMethods skips rest = .ok rest :=
      ih fun x hx => h x (by simp [hx])
    simp [filterMethods, hhead, hrest]

theorem filterAttrs_idem (skips : List Matcher) (l l' : List (String × PyVal))
    (h : filterAttrs skips l = .ok l') : filterAttrs skips l' = .ok l' := by
  apply filterAttrs_of_surviving
  intro e he
  rw [filterAttrs_eq_filter skips l l' h] at he
  exact isOkFalse_iff.mp (List.mem_filter.mp he).2

theorem filterMethods_idem (skips : List Matcher) (l l' : List (MethodKey × PyVal))
    (h : filterMethods skips l = .ok l') : filterMethods skips l' = .ok l' := by
  apply filterMethods_of_surviving
  intro e he
  rw [filterMethods_eq_filter skips l l' h] at he
  exact isOkFalse_iff.mp (List.mem_filter.mp he).2

theorem modifyClassDesc_inv (skips : List Matcher) (c c' : ClassDesc)
    (h : modifyClassDesc skips c = .ok c') :
    ∃ a m, filterAttrs skips c.attrs = .ok a ∧
      filterMethods skips c.methods = .ok m ∧
      c' = { c with attrs := a, methods := m } := by
  cases ha : filterAttrs skips c.attrs with
  | error e => simp [modifyClassDesc, ha] at h
  | ok a =>
    cases hm : filterMethods skips c.methods with
    | error e => simp [modifyClassDesc, ha, hm] at h
    | ok m =>
      simp [modifyClassDesc, ha, hm] at h
      exact ⟨a, m, rfl, rfl, h.symm⟩

theorem modifyClassDesc_name (skips : List Matcher) (c c' : ClassDesc)
    (h : modifyClassDesc skips c = .ok c') : c'.name = c.name := by
  obtain ⟨a, m, _, _, rfl⟩ := modifyClassDesc_inv skips c c' h
  rfl

theorem modifyClassDesc_idem (skips : List Matcher) (c c' : ClassDesc)
    (h : modifyClassDesc skips c = .ok c') :
    modifyClassDesc skips c' = .ok c' := by
  obtain ⟨a, m, ha, hm, rfl⟩ := modifyClassDesc_inv skips c c' h
  simp [modifyClassDesc, filterAttrs_idem skips c.attrs a ha,
    filterMethods_idem skips c.methods m hm]

theorem argsCheck_nil_matchers : ∀ args : List Param, argsCheck [] args = .ok false
| [] => rfl
| a :: rest => by simp [argsCheck, firstMatch, argsCheck_nil_matchers rest]

theorem modifyClassDesc_nil (c : ClassDesc) : modifyClassDesc [] c = .ok c := by
  have ha := filterAttrs_of_surviving [] c.attrs fun e _ => rfl
  have hm := filterMethods_of_surviving [] c.methods fun e _ => by
    simp [methodDeleted, firstMatch, argsCheck_nil_matchers]
  simp [modifyClassDesc, ha, hm]

theorem execEntryDict_nil (d : Desc) : execEntryDict [] d = .ok d := by
  cases d with
  | cls c => simp [execEntryDict, List.lookup]
  | other s => rfl

theorem execEntryList_nil (d : Desc) : execEntryList [] d = .ok d := by
  cases d with
  | cls c => simp [execEntryList, modifyClassDesc_nil]
  | other s => rfl

theorem mapModM_of_id {f : Desc → Except PyErr Desc} (hf : ∀ d, f d = .ok d) :
    ∀ mod : Mod, mapModM f mod = .ok mod
| [] => rfl
| (kk, d) :: rest => by simp [mapModM, hf d, mapModM_of_id hf rest]

theorem mapEnvM_of_id {f : Desc → Except PyErr Desc} (hf : ∀ d, f d = .ok d) :
    ∀ env : Env, mapEnvM f env = .ok env
| [] => rfl
| (mk, mod) :: rest => by
  simp [mapEnvM, mapModM_of_id hf mod, mapEnvM_of_id hf rest]

theorem mapModM_pointwise {R : Desc → Desc → Prop} {f : Desc → Except PyErr Desc}
    (hf : ∀ d d', f d = .ok d' → R d d') :
    ∀ mod mod' : Mod, mapModM f mod = .ok mod' →
      List.Forall₂ (fun e e' => e'.1 = e.1 ∧ R e.2 e'.2) mod mod' := by
  intro mod
  induction mod with
  | nil =>
    intro mod' h
    injection h with h
    rw [← h]
    exact List.Forall₂.nil
  | cons e rest ih =>
    intro mod' h
    obtain ⟨kk, d⟩ := e
    cases hd : f d with
    | error er => simp [mapModM, hd] at h
    | ok d' =>
      cases hrest : mapModM f rest with
      | error er => simp [mapModM, hd, hrest] at h
      | ok rest' =>
        simp [mapModM, hd, hrest] at h
        subst h
        exact List.Forall₂.cons ⟨rfl, hf d d' hd⟩ (ih rest' hrest)

theorem mapEnvM_pointwise {R : Desc → Desc → Prop} {f : Desc → Except PyErr Desc}
    (hf : ∀ d d', f d = .ok d' → R d d') :
    ∀ env env' : Env, mapEnvM f env = .ok env' →
      List.Forall₂ (fun m m' => m'.1 = m.1 ∧
        List.Forall₂ (fun e e' => e'.1 = e.1 ∧ R e.2 e'.2) m.2 m'.2) env env' := by
  intro env
  induction env with
  | nil =>
    intro env' h
    injection h with h
    rw [← h]
    exact List.Forall₂.nil
  | cons me rest ih =>
    intro env' h
    obtain ⟨mk, mod⟩ := me
    cases hd : mapModM f mod with
    | error er => simp [mapEnvM, hd] at h
    | ok mod' =>
      cases hrest : mapEnvM f rest with
      | error er => simp [mapEnvM, hd, hrest] at h
      | ok rest' =>
        simp [mapEnvM, hd, hrest] at h
        subst h
        exact List.Forall₂.cons ⟨rfl, mapModM_pointwise hf mod mod' hd⟩
          (ih rest' hrest)

theorem mapModM_idem {f : Desc → Except PyErr Desc}
    (hf : ∀ d d', f d = .ok d' → f d' = .ok d') :
    ∀ mod mod' : Mod, mapModM f mod = .ok mod' → mapModM f mod' = .ok mod' := by
  intro mod
  induction mod with
  | nil =>
    intro mod' h
    injection h with h
    rw [← h]
    rfl
  | cons e rest ih =>
    intro mod' h
    obtain ⟨kk, d⟩ := e
    cases hd : f d with
    | error er => simp [mapModM, hd] at h
    | ok d' =>
      cases hrest : mapModM f rest with
      | error er => simp [mapModM, hd, hrest] at h
      | ok rest' =>
        simp [mapModM, hd, hrest] at h
        subst h
        simp [mapModM, hf d d' hd, ih rest' hrest]

theorem mapEnvM_idem {f : Desc → Except PyErr Desc}
    (hf : ∀ d d', f d = .ok d' → f d' = .ok d') :
    ∀ env env' : Env, mapEnvM f env = .ok env' → mapEnvM f env' = .ok env' := by
  intro env
  induction env with
  | nil =>
    intro env' h
    injection h with h
    rw [← h]
    rfl
  | cons me rest ih =>
    intro env' h
    obtain ⟨mk, mod⟩ := me
    cases hd : mapModM f mod with
    | error er => simp [mapEnvM, hd] at h
    | ok mod' =>
      cases hrest : mapEnvM f rest with
      | error er => simp [mapEnvM, hd, hrest] at h
      | ok rest' =>
        simp [mapEnvM, hd, hrest] at h
        subst h
        simp [mapEnvM, mapModM_idem hf mod mod' hd, ih rest' hrest]

theorem mapModM_congr {f g : Desc → Except PyErr Desc} :
    ∀ mod : Mod, (∀ e ∈ mod, f e.2 = g e.2) → mapModM f mod = mapModM g mod
| [], _ => rfl
| (kk, d) :: rest, h => by
  have hd : f d = g d := h (kk, d) (by simp)
  have hrest := mapModM_congr rest fun e he => h e (by simp [he])
  simp [mapModM, hd, hrest]

theorem mapEnvM_congr {f g : Desc → Except PyErr Desc} :
    ∀ env : Env, (∀ me ∈ env, ∀ e ∈ me.2, f e.2 = g e.2) →
      mapEnvM f env = mapEnvM g env
| [], _ => rfl
| (mk, mod) :: rest, h => by
  have hmod := mapModM_congr mod fun e he => h (mk, mod) (by simp) e he
  have hrest := mapEnvM_congr rest fun me hme e he => h me (by simp [hme]) e he
  simp [mapEnvM, hmod, hrest]

theorem execEntryDict_idem (kvs : List (String × List Matcher)) (d d' : Desc)
    (h : execEntryDict kvs d = .ok d') : execEntryDict kvs d' = .ok d' := by
  cases d with
  | other s =>
    simp [execEntryDict] at h
    subst h
    rfl
  | cls c =>
    cases hl : List.lookup c.name kvs with
    | none =>
      simp [execEntryDict, hl] at h
      subst h
      simp [execEntryDict, hl]
    | some ms =>
      cases hmc : modifyClassDesc ms c with
      | error er => simp [execEntryDict, hl, hmc] at h
      | ok c2 =>
        simp [execEntryDict, hl, hmc] at h
        subst h
        have hname : c2.name = c.name := modifyClassDesc_name ms c c2 hmc
        simp [execEntryDict, hname, hl, modifyClassDesc_idem ms c c2 hmc]

theorem execEntryList_idem (ms : List Matcher) (d d' : Desc)
    (h : execEntryList ms d = .ok d') : execEntryList ms d' = .ok d' := by
  cases d with
  | other s =>
    simp [execEntryList] at h
    subst h
    rfl
  | cls c =>
    cases hmc : modifyClassDesc ms c with
    | error er => simp [execEntryList, hmc] at h
    | ok c2 =>
      simp [execEntryList, hmc] at h
      subst h
      simp [execEntryList, modifyClassDesc_idem ms c c2 hmc]

/-- Structural relation between a descriptor before and after the pass:
an `other` descriptor is untouched, a class descriptor keeps its name and
loses at most some `attrs`/`methods` entries (each surviving mapping is a
sublist of the original). -/
def descShape : Desc → Desc → Prop
| .cls c, .cls c' =>
  c'.name = c.name ∧ c'.attrs.Sublist c.attrs ∧ c'.methods.Sublist c.methods
| .other a, .other b => b = a
| .cls _, .other _ => False
| .other _, .cls _ => False

theorem descShape_refl : ∀ d : Desc, descShape d d
| .cls _ => ⟨rfl, List.Sublist.refl _, List.Sublist.refl _⟩
| .other _ => rfl

theorem modifyClassDesc_shape (skips : List Matcher) (c c' : ClassDesc)
    (h : modifyClassDesc skips c = .ok c') :
    c'.name = c.name ∧ c'.attrs.Sublist c.attrs ∧ c'.methods.Sublist c.methods := by
  obtain ⟨a, m, ha, hm, rfl⟩ := modifyClassDesc_inv skips c c' h
  refine ⟨rfl, ?_, ?_⟩
  · rw [filterAttrs_eq_filter skips c.attrs a ha]
    exact List.filter_sublist _
  · rw [filterMethods_eq_filter skips c.methods m hm]
    exact List.filter_sublist _

theorem execEntryDict_shape (kvs : List (String × List Matcher)) (d d' : Desc)
    (h : execEntryDict kvs d = .ok d') : descShape d d' := by
  cases d with
  | other s =>
    simp [execEntryDict] at h
    subst h
    rfl
  | cls c =>
    cases hl : List.lookup c.name kvs with
    | none =>
      simp [execEntryDict, hl] at h
      subst h
      exact descShape_refl _
    | some ms =>
      cases hmc : modifyClassDesc ms c with
      | error er => simp [execEntryDict, hl, hmc] at h
      | ok c2 =>
        simp [execEntryDict, hl, hmc] at h
        subst h
        exact modifyClassDesc_shape ms c c2 hmc

theorem execEntryList_shape (ms : List Matcher) (d d' : Desc)
    (h : execEntryList ms d = .ok d') : descShape d d' := by
  cases d with
  | other s =>
    simp [execEntryList] at h
    subst h
    rfl
  | cls c =>
    cases hmc : modifyClassDesc ms c with
    | error er => simp [execEntryList, hmc] at h
    | ok c2 =>
      simp [execEntryList, hmc] at h
      subst h
      exact modifyClassDesc_shape ms c c2 hmc

/-- A descriptor the dict configuration does not target: it is not a
class descriptor whose name is a key of the mapping. -/
def notTargeted (kvs : List (String × List Matcher)) (d : Desc) : Prop :=
  ∀ c : ClassDesc, d = .cls c → List.lookup c.name kvs = none

theorem execEntryDict_untouched (kvs : List (String × List Matcher)) (d d' : Desc)
    (h : execEntryDict kvs d = .ok d') (hnt : notTargeted kvs d) : d' = d := by
  cases d with
  | other s =>
    simp [execEntryDict] at h
    exact h.symm
  | cls c =>
    have hl : List.lookup c.name kvs = none := hnt c rfl
    simp [execEntryDict, hl] at h
    exact h.symm

theorem execEntryDict_cons_unknown (k : String) (ms : List Matcher)
    (kvs : List (String × List Matcher)) (d : Desc)
    (hk : ∀ c : ClassDesc, d = .cls c → c.name ≠ k) :
    execEntryDict ((k, ms) :: kvs) d = execEntryDict kvs d := by
  cases d with
  | other s => rfl
  | cls c =>
    have hne : (c.name == k) = false := by simp [hk c rfl]
    simp [execEntryDict, List.lookup, hne]

/-- No class descriptor anywhere in the environment carries the name
`k`. -/
def noClassNamed (k : String) (env : Env) : Prop :=
  ∀ me ∈ env, ∀ e ∈ me.2, ∀ c : ClassDesc, e.2 = Desc.cls c → c.name ≠ k

/-! ## C4: order of checks in the method pass -/

theorem methodDeleted_of_ret (skips : List Matcher) (k : MethodKey) (ret : PyVal)
    (h : firstMatch skips ret = .ok true) : methodDeleted skips k ret = .ok true := by
  simp [methodDeleted, h]

theorem firstMatch_head_true (tm : Matcher) (skips : List Matcher) (t : PyVal)
    (r : Option Bool) (h1 : matchAnywhere tm t = .ok r) (h2 : truthy r = true) :
    firstMatch (tm :: skips) t = .ok true := by
  simp [firstMatch, h1, h2]

theorem argsCheck_head_true (skips : List Matcher) (a : Param) (rest : List Param)
    (h : firstMatch skips a.ptype = .ok true) :
    argsCheck skips (a :: rest) = .ok true := by
  simp [argsCheck, h]

theorem argsCheck_types_only (skips : List Matcher) :
    ∀ args₁ args₂ : List Param, args₁.map Param.ptype = args₂.map Param.ptype →
      argsCheck skips args₁ = argsCheck skips args₂ := by
  intro args₁
  induction args₁ with
  | nil =>
    intro args₂ h
    have h2 : args₂ = [] := List.map_eq_nil_iff.mp h.symm
    rw [h2]
  | cons a as ih =>
    intro args₂ h
    cases args₂ with
    | nil => simp at h
    | cons b bs =>
      simp at h
      obtain ⟨h1, h2⟩ := h
      simp [argsCheck, h1, ih bs h2]

theorem methodDeleted_types_only (skips : List Matcher) (n₁ n₂ : String)
    (args₁ args₂ : List Param) (ret : PyVal)
    (h : args₁.map Param.ptype = args₂.map Param.ptype) :
    methodDeleted skips ⟨n₁, args₁⟩ ret = methodDeleted skips ⟨n₂, args₂⟩ ret := by
  simp [methodDeleted, argsCheck_types_only skips args₁ args₂ h]

/-- C4: in the method pass, the return type is tested first and a match
deletes the method with nothing further evaluated; parameters are tested
in order by their type only (never their name or default), the first
matcher/parameter match deletes with no further matchers or parameters
evaluated; and the pass processes each attribute and method entry of the
snapshot exactly once, so the survivors are exactly the filter of the
per-entry predicate and deletions never disturb siblings. -/
theorem method_pass_order :
    (∀ (skips : List Matcher) (k : MethodKey) (ret : PyVal),
        firstMatch skips ret = .ok true → methodDeleted skips k ret = .ok true) ∧
    (∀ (tm : Matcher) (skips : List Matcher) (t : PyVal) (r : Option Bool),
        matchAnywhere tm t = .ok r → truthy r = true →
        firstMatch (tm :: skips) t = .ok true) ∧
    (∀ (skips : List Matcher) (a : Param) (rest : List Param),
        firstMatch skips a.ptype = .ok true → argsCheck skips (a :: rest) = .ok true) ∧
    (∀ (skips : List Matcher) (n₁ n₂ : String) (args₁ args₂ : List Param) (ret : PyVal),
        args₁.map Param.ptype = args₂.map Param.ptype →
        methodDeleted skips ⟨n₁, args₁⟩ ret = methodDeleted skips ⟨n₂, args₂⟩ ret) ∧
    (∀ (skips : List Matcher) (l l' : List (MethodKey × PyVal)),
        filterMethods skips l = .ok l' →
        l' = l.filter fun e => isOkFalse (methodDeleted skips e.1 e.2)) ∧
    (∀ (skips : List Matcher) (l l' : List (String × PyVal)),
        filterAttrs skips l = .ok l' →
        l' = l.filter fun e => isOkFalse (firstMatch skips e.2)) :=
  ⟨methodDeleted_of_ret, firstMatch_head_true, argsCheck_head_true,
    methodDeleted_types_only, filterMethods_eq_filter, filterAttrs_eq_filter⟩

/-- The matcher list used by the concrete witnesses. -/
def skipsW : List Matcher := [typeMatcher (.str "float64")]

/-- A method key `f(n: int32)` used by the concrete witnesses. -/
def mkeyW : MethodKey := ⟨"f", [⟨"n", .str "int32", none⟩]⟩

theorem method_pass_order_witness :
    methodDeleted skipsW mkeyW (.str "float64") = .ok true ∧
    firstMatch (typeMatcher (.str "float64") :: []) (.str "float64") = .ok true ∧
    argsCheck skipsW (⟨"a", .str "float64", none⟩ :: []) = .ok true ∧
    methodDeleted skipsW ⟨"g", [⟨"a", .str "int32", none⟩]⟩ (.str "void") =
      methodDeleted skipsW ⟨"h", [⟨"b", .str "int32", some (.str "0")⟩]⟩ (.str "void") ∧
    ([] : List (MethodKey × PyVal)) =
      [(mkeyW, PyVal.str "float64")].filter
        (fun e => isOkFalse (methodDeleted skipsW e.1 e.2)) ∧
    ([("y", PyVal.str "int32")] : List (String × PyVal)) =
      [("x", PyVal.str "float64"), ("y", PyVal.str "int32")].filter
        (fun e => isOkFalse (firstMatch skipsW e.2)) :=
  ⟨method_pass_order.1 skipsW mkeyW (.str "float64") rfl,
    method_pass_order.2.1 (typeMatcher (.str "float64")) [] (.str "float64")
      (some true) rfl rfl,
    method_pass_order.2.2.1 skipsW ⟨"a", .str "float64", none⟩ [] rfl,
    method_pass_order.2.2.2.1 skipsW "g" "h" [⟨"a", .str "int32", none⟩]
      [⟨"b", .str "int32", some (.str "0")⟩] (.str "void") rfl,
    method_pass_order.2.2.2.2.1 skipsW [(mkeyW, PyVal.str "float64")] [] rfl,
    method_pass_order.2.2.2.2.2 skipsW
      [("x", PyVal.str "float64"), ("y", PyVal.str "int32")]
      [("y", PyVal.str "int32")] rfl⟩

/-! ## C6: an empty or absent configuration is a no-op -/

/-- The raw configurations the claim calls "empty or absent": the unset
sentinel, `None`, or an empty sequence/mapping. -/
def emptyRaw (r : RawSkip) : Prop :=
  r = .notSpecified ∨ r = .pyNone ∨ r = .dict [] ∨ r = .listc [] ∨ r = .tuplec []

/-- C6: with an empty or absent exclusion configuration, running `setup`
followed by `execute` leaves the description model unchanged and reports
no error. -/
theorem empty_config_noop (mk : PyVal → Matcher) (env : Env) (raw : RawSkip)
    (h : emptyRaw raw) : execute (setup mk raw) env = .ok env := by
  rcases h with rfl | rfl | rfl | rfl | rfl
  · rfl
  · rfl
  · exact mapEnvM_of_id execEntryDict_nil env
  · exact mapEnvM_of_id execEntryList_nil env
  · exact mapEnvM_of_id execEntryList_nil env

/-- The small description environment used by the concrete witnesses:
one module with one class (one attribute, one method) and one non-class
descriptor. -/
def envW : Env :=
  [("m", [("Blah", Desc.cls
      { name := "Blah"
        attrs := [("x", .str "float64"), ("y", .str "int32")]
        methods := [(mkeyW, .tup (.cons (.str "vector")
          (.cons (.str "float64") .nil)))] }),
    ("v", Desc.other "variable")])]

theorem empty_config_noop_witness :
    execute (setup typeMatcher .notSpecified) envW = .ok envW :=
  empty_config_noop typeMatcher envW .notSpecified (Or.inl rfl)

/-! ## C7: frame of the per-entity (dict) configuration -/

/-- C7: under a dict configuration, every descriptor the mapping does not
target keeps its key and value untouched, and prepending a key that names
no class of the model changes nothing about what `execute` computes. -/
theorem dict_config_frame :
    (∀ (kvs : List (String × List Matcher)) (env env' : Env),
        execute (.dict kvs) env = .ok env' →
        List.Forall₂ (fun m m' => m'.1 = m.1 ∧
          List.Forall₂ (fun e e' => e'.1 = e.1 ∧ (notTargeted kvs e.2 → e'.2 = e.2))
            m.2 m'.2) env env') ∧
    (∀ (k : String) (ms : List Matcher) (kvs : List (String × List Matcher))
        (env : Env), noClassNamed k env →
        execute (.dict ((k, ms) :: kvs)) env = execute (.dict kvs) env) := by
  constructor
  · intro kvs env env' h
    exact mapEnvM_pointwise (R := fun d d' => notTargeted kvs d → d' = d)
      (fun d d' hd hnt => execEntryDict_untouched kvs d d' hd hnt) env env' h
  · intro k ms kvs env hk
    exact mapEnvM_congr env fun me hme e he =>
      execEntryDict_cons_unknown k ms kvs e.2 fun c hc => hk me hme e he c hc

/-- A dict configuration keyed by a class name that does not occur in
`envW`. -/
def kvsW : List (String × List Matcher) := [("Other", skipsW)]

theorem dict_config_frame_witness :
    List.Forall₂ (fun m m' => m'.1 = m.1 ∧
      List.Forall₂ (fun e e' => e'.1 = e.1 ∧ (notTargeted kvsW e.2 → e'.2 = e.2))
        m.2 m'.2) envW envW ∧
    execute (.dict (("NoSuch", skipsW) :: kvsW)) envW = execute (.dict kvsW) envW :=
  ⟨dict_config_frame.1 kvsW envW envW rfl,
    dict_config_frame.2 "NoSuch" skipsW kvsW envW (by
      intro me hme e he c hc
      simp [envW] at hme
      subst hme
      simp at he
      rcases he with he | he
      · rw [he] at hc
        simp at hc
        rw [← hc]
        decide
      · rw [he] at hc
        simp at hc)⟩

/-! ## C8: filtering is idempotent -/

/-- C8: a second `execute` run with the same configuration on an
already-filtered model removes nothing further: it succeeds and returns
the model unchanged. -/
theorem execute_idempotent (skip : Skip) (env env' : Env)
    (h : execute skip env = .ok env') : execute skip env' = .ok env' := by
  cases skip with
  | notSpecified =>
    injection h with h
    rw [← h]
    rfl
  | pyNone =>
    injection h with h
    rw [← h]
    rfl
  | dict kvs => exact mapEnvM_idem (execEntryDict_idem kvs) env env' h
  | listc ms => exact mapEnvM_idem (execEntryList_idem ms) env env' h

/-- What the global configuration `skipsW` leaves of `envW`: the
`float64` attribute and the method whose return type contains `float64`
are gone. -/
def envWfiltered : Env :=
  [("m", [("Blah", Desc.cls
      { name := "Blah"
        attrs := [("y", .str "int32")]
        methods := [] }),
    ("v", Desc.other "variable")])]

theorem execute_idempotent_witness :
    execute (.listc skipsW) envWfiltered = .ok envWfiltered :=
  execute_idempotent (.listc skipsW) envW envWfiltered rfl

/-! ## C9: execute only prunes attrs/methods entries -/

/-- C9: a successful `execute` run preserves the structural shape of the
model: module keys and entity keys survive in order, non-class
descriptors are unchanged, and every class descriptor keeps its name
while its `attrs` and `methods` mappings lose at most some entries, so
the model stays structurally valid. -/
theorem execute_preserves_shape (skip : Skip) (env env' : Env)
    (h : execute skip env = .ok env') :
    List.Forall₂ (fun m m' => m'.1 = m.1 ∧
      List.Forall₂ (fun e e' => e'.1 = e.1 ∧ descShape e.2 e'.2) m.2 m'.2)
      env env' := by
  cases skip with
  | notSpecified =>
    injection h with h
    rw [← h]
    exact List.forall₂_same.mpr fun m _ =>
      ⟨rfl, List.forall₂_same.mpr fun e _ => ⟨rfl, descShape_refl e.2⟩⟩
  | pyNone =>
    injection h with h
    rw [← h]
    exact List.forall₂_same.mpr fun m _ =>
      ⟨rfl, List.forall₂_same.mpr fun e _ => ⟨rfl, descShape_refl e.2⟩⟩
  | dict kvs => exact mapEnvM_pointwise (execEntryDict_shape kvs) env env' h
  | listc ms => exact mapEnvM_pointwise (execEntryList_shape ms) env env' h

theorem execute_preserves_shape_witness :
    List.Forall₂ (fun m m' => m'.1 = m.1 ∧
      List.Forall₂ (fun e e' => e'.1 = e.1 ∧ descShape e.2 e'.2) m.2 m'.2)
      envW envWfiltered :=
  execute_preserves_shape (.listc skipsW) envW envWfiltered rfl

end Typefilter
